import Mathlib

/-!
Verification of the St. Paul crime browser (REST service `rest_server.mjs`
plus the single-page client component).  The definitions below are a shallow
embedding of the code: the relational store is a list of rows, each HTTP
handler becomes a pure function from the request data and the store to the
response and the new store, and the client-side helpers (marker sizing,
block-address expansion, map clamping) become pure functions as well.
-/

/-! ## JavaScript numeric parsing (used by the `limit` handling)

`rest_server.mjs` computes the effective row limit with
`parseInt(req.query.limit)` followed by a finiteness/positivity check.
`parseIntJS` models the ECMAScript `parseInt` with no radix argument:
leading whitespace is skipped, an optional sign is read, a `0x`/`0X`
prefix switches to hexadecimal, and the longest valid digit prefix is
converted; the result is `none` when no digit can be read (JS `NaN`). -/

def isHexDigitChar (c : Char) : Bool :=
  c.isDigit || ('a' ≤ c && c ≤ 'f') || ('A' ≤ c && c ≤ 'F')

def hexDigitValue (c : Char) : Nat :=
  if c.isDigit then c.toNat - 48
  else if 'a' ≤ c && c ≤ 'f' then c.toNat - 87
  else if 'A' ≤ c && c ≤ 'F' then c.toNat - 55
  else 0

def digitsToNat (base : Nat) (ds : List Char) : Nat :=
  ds.foldl (fun acc c => acc * base + hexDigitValue c) 0

def parseIntJS (s : String) : Option Int :=
  let t := s.data.dropWhile (fun c => c.isWhitespace)
  let sgn : Int := match t with
    | '-' :: _ => -1
    | _ => 1
  let u : List Char := match t with
    | '-' :: r => r
    | '+' :: r => r
    | _ => t
  match u with
  | '0' :: 'x' :: r =>
    let ds := r.takeWhile isHexDigitChar
    if ds = [] then none else some (sgn * (digitsToNat 16 ds : Int))
  | '0' :: 'X' :: r =>
    let ds := r.takeWhile isHexDigitChar
    if ds = [] then none else some (sgn * (digitsToNat 16 ds : Int))
  | _ =>
    let ds := u.takeWhile (fun c => c.isDigit)
    if ds = [] then none else some (sgn * (digitsToNat 10 ds : Int))

/-- Effective row limit of `GET /incidents` (`rest_server.mjs` lines 161-162):
`req.query.limit ? parseInt(req.query.limit) : 1000`, where an absent or
empty (JS-falsy) parameter yields the default, followed by
`if (!Number.isFinite(limit) || limit <= 0) limit = 1000`.  `parseIntJS`
returning `none` models the `NaN` (non-finite) case. -/
def effLimit (o : Option String) : Int :=
  match o with
  | none => 1000
  | some s =>
    if s = "" then 1000
    else
      match parseIntJS s with
      | none => 1000
      | some v => if v ≤ 0 then 1000 else v

def effLimitNat (o : Option String) : Nat := (effLimit o).toNat

/-! ## Comma splitting and trimming

Every list filter is processed as `value.split(',').map((x) => x.trim())`
(`rest_server.mjs` lines 59, 84, 135, 142, 149).  `splitCommaChars` models
`String.prototype.split(',')` (every separator splits, empty pieces kept,
the empty string yields one empty piece) and `trimChars` models
`String.prototype.trim`. -/

def splitCommaChars : List Char → List (List Char)
  | [] => [[]]
  | c :: cs =>
    let r := splitCommaChars cs
    if c = ',' then [] :: r
    else
      match r with
      | [] => [[c]]
      | h :: t => (c :: h) :: t

def trimChars (l : List Char) : List Char :=
  ((l.dropWhile (fun c => c.isWhitespace)).reverse.dropWhile
    (fun c => c.isWhitespace)).reverse

def splitCommaTrim (s : String) : List String :=
  (splitCommaChars s.data).map (fun l => String.mk (trimChars l))

/-! ## SQLite value handling

The incident table stores `date_time` as an ISO `YYYY-MM-DDTHH:MM:SS`
text value.  `dateOf`/`timeOf` model the SQLite `DATE(date_time)` /
`TIME(date_time)` projections used by `GET /incidents` (lines 111-112) on
such well-formed values: the text before / after the `T` separator.
`castToInt` models the SQLite INTEGER-affinity conversion applied to a
bound text parameter compared against an INTEGER column (`code IN (?)`
etc.): a text that is a pure optionally-signed decimal integer converts,
anything else compares as text and matches no integer. -/

/-- Bytewise (codepoint-wise) string comparison, as SQLite compares TEXT
values with memcmp; on the ASCII date/time strings involved this is plain
lexicographic order. -/
def leChars : List Char → List Char → Bool
  | [], _ => true
  | _ :: _, [] => false
  | a :: as, b :: bs => if a = b then leChars as bs else decide (a < b)

def strLe (a b : String) : Bool := leChars a.data b.data

def dateOf (dt : String) : String :=
  String.mk (dt.data.takeWhile (fun c => c != 'T'))

def timeOf (dt : String) : String :=
  String.mk ((dt.data.dropWhile (fun c => c != 'T')).drop 1)

def castToInt (s : String) : Option Int :=
  match s.data with
  | '-' :: ds =>
    if ds ≠ [] ∧ ds.all (fun c => c.isDigit) then some (-(digitsToNat 10 ds : Int))
    else none
  | '+' :: ds =>
    if ds ≠ [] ∧ ds.all (fun c => c.isDigit) then some (digitsToNat 10 ds : Int)
    else none
  | ds =>
    if ds ≠ [] ∧ ds.all (fun c => c.isDigit) then some (digitsToNat 10 ds : Int)
    else none

def inIntFilter (v : Int) (vals : List String) : Bool :=
  vals.any (fun s => castToInt s == some v)

/-! ## Data model -/

/-- A row of the `Incidents` table (spec section 3). -/
structure Incident where
  case_number : String
  date_time : String
  code : Int
  incident : String
  police_grid : Int
  neighborhood_number : Int
  block : String
deriving DecidableEq

/-- The record shape returned by `GET /incidents` (lines 167-176): the
stored `date_time` is projected to separate `date` and `time` strings. -/
structure IncidentOut where
  case_number : String
  date : String
  time : String
  code : Int
  incident : String
  police_grid : Int
  neighborhood_number : Int
  block : String
deriving DecidableEq

/-- The query-string parameters of `GET /incidents`.  `none` models an
absent parameter; `some ""` models a present-but-empty one (JS-falsy, so
treated like absent by every `if (req.query.x)` guard). -/
structure IncidentsQuery where
  start_date : Option String
  end_date : Option String
  code : Option String
  grid : Option String
  neighborhood : Option String
  limit : Option String
deriving DecidableEq

/-! ## GET /incidents -/

def dateGeMatch (o : Option String) (dt : String) : Bool :=
  match o with
  | none => true
  | some s => if s = "" then true else strLe s (dateOf dt)

def dateLeMatch (o : Option String) (dt : String) : Bool :=
  match o with
  | none => true
  | some s => if s = "" then true else strLe (dateOf dt) s

def listMatch (o : Option String) (v : Int) : Bool :=
  match o with
  | none => true
  | some s => if s = "" then true else inIntFilter v (splitCommaTrim s)

/-- The WHERE clause of `GET /incidents` (lines 124-156) evaluated at one
row: date-range bounds on `date(date_time)` and IN-filters on `code`,
`police_grid` and `neighborhood_number`. -/
def rowMatches (q : IncidentsQuery) (r : Incident) : Bool :=
  dateGeMatch q.start_date r.date_time &&
  dateLeMatch q.end_date r.date_time &&
  listMatch q.code r.code &&
  listMatch q.grid r.police_grid &&
  listMatch q.neighborhood r.neighborhood_number

/-- `ORDER BY date_time DESC` (line 159): row `a` may precede row `b`
when `b`'s timestamp is at most `a`'s (ISO text compares bytewise, which
is chronological). -/
def dtGe (a b : Incident) : Prop := strLe b.date_time a.date_time = true

instance : DecidableRel dtGe :=
  fun a b => (inferInstance : Decidable (strLe b.date_time a.date_time = true))

/-- Rows produced by `GET /incidents`: filter, order newest first,
truncate to the effective limit (lines 121-165). -/
def listIncidentsRows (db : List Incident) (q : IncidentsQuery) : List Incident :=
  (List.insertionSort dtGe (db.filter (fun r => rowMatches q r))).take
    (effLimitNat q.limit)

def toOut (r : Incident) : IncidentOut :=
  { case_number := r.case_number
    date := dateOf r.date_time
    time := timeOf r.date_time
    code := r.code
    incident := r.incident
    police_grid := r.police_grid
    neighborhood_number := r.neighborhood_number
    block := r.block }

def listIncidents (db : List Incident) (q : IncidentsQuery) : List IncidentOut :=
  (listIncidentsRows db q).map toOut

/-- `q` with the `code` filter removed: the "same request without the
code filter". -/
def dropCode (q : IncidentsQuery) : IncidentsQuery := { q with code := none }

/-! ## Mutations -/

/-- The JSON body of `PUT /new-incident` (lines 201-212): date and time
arrive as separate strings; the server concatenates them with a `T`. -/
structure NewIncident where
  case_number : String
  date : String
  time : String
  code : Int
  incident : String
  police_grid : Int
  neighborhood_number : Int
  block : String
deriving DecidableEq

def mkRow (b : NewIncident) : Incident :=
  { case_number := b.case_number
    date_time := b.date ++ "T" ++ b.time
    code := b.code
    incident := b.incident
    police_grid := b.police_grid
    neighborhood_number := b.neighborhood_number
    block := b.block }

/-- `PUT /new-incident` (lines 186-220): a preceding read checks whether
the case number exists; on conflict the handler answers 500 with the text
below and inserts nothing, otherwise it inserts exactly one row. -/
def createIncident (db : List Incident) (b : NewIncident) :
    Except String (List Incident) :=
  if db.any (fun r => r.case_number == b.case_number) then
    Except.error "Case number already exists"
  else
    Except.ok (db ++ [mkRow b])

def storeAfterCreate (db : List Incident) (b : NewIncident) : List Incident :=
  match createIncident db b with
  | Except.ok db2 => db2
  | Except.error _ => db

/-- `DELETE /remove-incident` (lines 223-241): a preceding read checks
existence; a missing case number answers 500 with the text below and
changes nothing, otherwise `DELETE FROM Incidents WHERE case_number = ?`
removes the matching row(s). -/
def deleteIncident (db : List Incident) (cn : String) :
    Except String (List Incident) :=
  if db.any (fun r => r.case_number == cn) then
    Except.ok (db.filter (fun r => r.case_number != cn))
  else
    Except.error "Case number does not exist"

def storeAfterDelete (db : List Incident) (cn : String) : List Incident :=
  match deleteIncident db cn with
  | Except.ok db2 => db2
  | Except.error _ => db

/-! ## SQL text construction

The three list endpoints build their SQL by string concatenation where the
only interpolated pieces are the generated `?` placeholder lists and (for
`GET /incidents`) the clamped integer limit; the filter values themselves
go into the bound-parameter list.  The builders below return the pair
(SQL text, bound parameters).  Whitespace of the source template literals
is normalized to single spaces. -/

def placeholders (l : List String) : String :=
  String.intercalate "," (l.map (fun _ => "?"))

def codesBase : String := "SELECT code, incident_type FROM Codes"

/-- `GET /codes` (lines 53-65). -/
def buildCodesQuery (c : Option String) : String × List String :=
  match c with
  | none => (codesBase ++ " ORDER BY code", [])
  | some s =>
    if s = "" then (codesBase ++ " ORDER BY code", [])
    else
      let cs := splitCommaTrim s
      (codesBase ++ " WHERE code IN (" ++ placeholders cs ++ ")" ++
        " ORDER BY code", cs)

def neighborhoodsBase : String :=
  "SELECT neighborhood_number, neighborhood_name FROM Neighborhoods"

/-- `GET /neighborhoods` (lines 78-90). -/
def buildNeighborhoodsQuery (i : Option String) : String × List String :=
  match i with
  | none => (neighborhoodsBase ++ " ORDER BY neighborhood_number", [])
  | some s =>
    if s = "" then (neighborhoodsBase ++ " ORDER BY neighborhood_number", [])
    else
      let ns := splitCommaTrim s
      (neighborhoodsBase ++ " WHERE neighborhood_number IN (" ++
        placeholders ns ++ ")" ++ " ORDER BY neighborhood_number", ns)

def incidentsBase : String :=
  "SELECT case_number, DATE(date_time) as date, TIME(date_time) as time, code, incident, police_grid, neighborhood_number, block FROM Incidents"

/-- One optional bound-date WHERE clause (lines 124-132). -/
def dateClause (txt : String) (o : Option String) : List String × List String :=
  match o with
  | none => ([], [])
  | some s => if s = "" then ([], []) else ([txt], [s])

/-- One optional IN-list WHERE clause (lines 134-153). -/
def listClause (col : String) (o : Option String) : List String × List String :=
  match o with
  | none => ([], [])
  | some s =>
    if s = "" then ([], [])
    else
      let vs := splitCommaTrim s
      ([col ++ " IN (" ++ placeholders vs ++ ")"], vs)

/-- The WHERE-clause texts of `GET /incidents`, in source order
(lines 121-156). -/
def incidentsWhereTexts (q : IncidentsQuery) : List String :=
  (dateClause "date(date_time) >= ?" q.start_date).1 ++
  (dateClause "date(date_time) <= ?" q.end_date).1 ++
  (listClause "code" q.code).1 ++
  (listClause "police_grid" q.grid).1 ++
  (listClause "neighborhood_number" q.neighborhood).1

/-- The bound parameters of `GET /incidents`, in source order. -/
def incidentsParams (q : IncidentsQuery) : List String :=
  (dateClause "date(date_time) >= ?" q.start_date).2 ++
  (dateClause "date(date_time) <= ?" q.end_date).2 ++
  (listClause "code" q.code).2 ++
  (listClause "police_grid" q.grid).2 ++
  (listClause "neighborhood_number" q.neighborhood).2

/-- The SQL text and bound parameters of `GET /incidents` (lines 108-163). -/
def buildIncidentsQuery (q : IncidentsQuery) : String × List String :=
  (incidentsBase ++
    (if incidentsWhereTexts q = [] then ""
      else " WHERE " ++ String.intercalate " AND " (incidentsWhereTexts q)) ++
    " ORDER BY date_time DESC" ++ " LIMIT " ++ toString (effLimit q.limit),
    incidentsParams q)

/-- Whether a query parameter is present and JS-truthy. -/
def present (o : Option String) : Bool :=
  match o with
  | none => false
  | some s => s != ""

/-- Element count of a comma-list parameter, `none` when absent/empty. -/
def lenOf (o : Option String) : Option Nat :=
  match o with
  | none => none
  | some s => if s = "" then none else some (splitCommaTrim s).length

/-- The presence pattern and comma-element counts of a `GET /incidents`
request: which filters are present and how many `?` placeholders each
IN-list generates. -/
def incidentsShape (q : IncidentsQuery) :
    Bool × Bool × Option Nat × Option Nat × Option Nat × Bool :=
  (present q.start_date, present q.end_date, lenOf q.code, lenOf q.grid,
    lenOf q.neighborhood, present q.limit)

/-! ## Client: neighborhood marker sizing

`updateNeighborhoodCircles` (client component, lines 192-229) counts
incidents per neighborhood, takes `maxCount = Math.max(1, ...counts)` and
draws each circle with radius `8 + 25 * Math.sqrt(count / maxCount)`. -/

noncomputable def markerRadius (count maxCount : Nat) : Real :=
  8 + 25 * Real.sqrt ((count : Real) / (maxCount : Real))

def maxCountOf (counts : List Nat) : Nat := counts.foldr max 1

/-! ## Client: block-address expansion

`showIncidentOnMap` (client component, lines 380-433) geocodes
`incident.block.replace(/(\d+)X/g, '$10') + ', St. Paul, MN'`: each
leftmost non-overlapping run of digits followed by one `X` becomes the
digits followed by a literal `0`.  `goExpand` is that global replacement
as a single left-to-right scan (`pending` holds the digit run read so
far, reversed). -/

def goExpand (pending : List Char) : List Char → List Char
  | [] => pending.reverse
  | c :: cs =>
    if c.isDigit then goExpand (c :: pending) cs
    else if c = 'X' ∧ pending ≠ [] then
      pending.reverse ++ '0' :: goExpand [] cs
    else
      pending.reverse ++ c :: goExpand [] cs

def expandBlock (s : String) : String := String.mk (goExpand [] s.data)

def geocodeAddress (block : String) : String :=
  expandBlock block ++ ", St. Paul, MN"

/-- A list starts with a digit-then-`X` placeholder: some nonempty digit
run immediately followed by `X`. -/
def StartsDX (l : List Char) : Prop :=
  ∃ ds rest, ds ≠ [] ∧ (∀ x ∈ ds, x.isDigit = true) ∧ l = ds ++ 'X' :: rest

/-- Modelled from the spec sentence for the block expansion: every
digit-then-`X` placeholder pattern is expanded to the digits followed by
a literal `0`, all other characters are copied unchanged.  The `copy`
rule is only allowed where no placeholder starts, so a derivation really
expands every occurrence. -/
inductive BlockExpandSpec : List Char → List Char → Prop where
  | nil : BlockExpandSpec [] []
  | expand : ∀ (ds rest out : List Char), ds ≠ [] →
      (∀ x ∈ ds, x.isDigit = true) → BlockExpandSpec rest out →
      BlockExpandSpec (ds ++ 'X' :: rest) (ds ++ '0' :: out)
  | copy : ∀ (c : Char) (rest out : List Char), ¬ StartsDX (c :: rest) →
      BlockExpandSpec rest out → BlockExpandSpec (c :: rest) (c :: out)

/-- The pieces of client map state that `showIncidentOnMap` touches.
Coordinates are kept in microdegrees (degrees scaled by `10^6`, the
precision of every coordinate literal in the component), so all
comparisons are exact integer comparisons. -/
structure CrimeMapState where
  crimeMarker : Option (Int × Int)
  center : Int × Int
  notified : Bool

/-- `showIncidentOnMap` after the geocoding response: the previous
crime marker is removed first (lines 381-384); on failure (`none`: no
result or invalid coordinates) the user is alerted and no marker is
placed; on success the marker is placed and the map re-centers there. -/
def showIncidentOnMap (st : CrimeMapState) (geo : Option (Int × Int)) :
    CrimeMapState :=
  let st1 : CrimeMapState := { st with crimeMarker := none }
  match geo with
  | none => { st1 with notified := true }
  | some c => { st1 with crimeMarker := some c, center := c }

/-! ## Client: St. Paul map bounds

`map.bounds` of the client component (lines 63-66) and `clampToStPaul`
(lines 234-239); `handleLocationGo` (lines 262-291) re-centers the map at
the clamped coordinates of a successful location search.  Coordinates are
in microdegrees: `45.008206` is stored as `45008206`, which preserves the
exact decimal values and their order. -/

def maxJS (a b : Int) : Int := if a ≤ b then b else a

def minJS (a b : Int) : Int := if b ≤ a then b else a

def nwLat : Int := 45008206
def nwLng : Int := -93217977
def seLat : Int := 44883658
def seLng : Int := -92993787

def clampToStPaul (lat lng : Int) : Int × Int :=
  (maxJS seLat (minJS nwLat lat), maxJS nwLng (minJS seLng lng))

def handleGoCenter (lat lng : Int) : Int × Int := clampToStPaul lat lng

/-! ## Concrete example values used by witnesses and counterexamples -/

def rowA : Incident :=
  { case_number := "24100001"
    date_time := "2024-01-02T08:00:00"
    code := 5
    incident := "Theft"
    police_grid := 87
    neighborhood_number := 7
    block := "95X UNIVERSITY AV W" }

def rowB : Incident :=
  { case_number := "24100002"
    date_time := "2024-01-01T09:30:00"
    code := 7
    incident := "Vandalism"
    police_grid := 88
    neighborhood_number := 8
    block := "7XX GRAND AV" }

def exDb : List Incident := [rowA, rowB]

/-- `GET /incidents?code=7&limit=1` over `exDb`. -/
def q7lim1 : IncidentsQuery :=
  { start_date := none, end_date := none, code := some "7", grid := none,
    neighborhood := none, limit := some "1" }

/-- `GET /incidents?code=7` over `exDb` (default limit). -/
def q7 : IncidentsQuery :=
  { start_date := none, end_date := none, code := some "7", grid := none,
    neighborhood := none, limit := none }

def emptyQuery : IncidentsQuery :=
  { start_date := none, end_date := none, code := none, grid := none,
    neighborhood := none, limit := none }

def exBody2024 : NewIncident :=
  { case_number := "24200001"
    date := "2024-01-05"
    time := "13:30:00"
    code := 9
    incident := "Burglary"
    police_grid := 92
    neighborhood_number := 11
    block := "12X SUMMIT AV" }

def qLim5 : IncidentsQuery :=
  { start_date := none, end_date := none, code := none, grid := none,
    neighborhood := none, limit := some "5" }

def qLim7 : IncidentsQuery :=
  { start_date := none, end_date := none, code := none, grid := none,
    neighborhood := none, limit := some "7" }

def qLim5sp : IncidentsQuery :=
  { start_date := none, end_date := none, code := none, grid := none,
    neighborhood := none, limit := some " 5" }

/-! ## Theorems -/

set_option maxRecDepth 4000

theorem leChars_total : ∀ a b : List Char, leChars a b = true ∨ leChars b a = true := by
  intro a
  induction a with
  | nil => intro b; left; rfl
  | cons x xs ih =>
    intro b
    cases b with
    | nil => right; rfl
    | cons y ys =>
      by_cases hxy : x = y
      · subst hxy
        simpa [leChars] using ih ys
      · rcases lt_or_gt_of_ne hxy with h | h
        · left; simp [leChars, hxy, h]
        · right
          have hyx : y ≠ x := fun hh => hxy hh.symm
          simp [leChars, hyx, h]

theorem leChars_trans :
    ∀ a b c : List Char, leChars a b = true → leChars b c = true →
      leChars a c = true := by
  intro a
  induction a with
  | nil => intro b c _ _; rfl
  | cons x xs ih =>
    intro b c hab hbc
    cases b with
    | nil => simp [leChars] at hab
    | cons y ys =>
      cases c with
      | nil => simp [leChars] at hbc
      | cons z zs =>
        by_cases hxy : x = y
        · subst hxy
          simp only [leChars, if_pos rfl] at hab
          by_cases hyz : x = z
          · subst hyz
            simp only [leChars, if_pos rfl] at hbc ⊢
            exact ih ys zs hab hbc
          · simp only [leChars, if_neg hyz] at hbc ⊢
            exact hbc
        · simp only [leChars, if_neg hxy, decide_eq_true_eq] at hab
          by_cases hyz : y = z
          · subst hyz
            simp [leChars, hxy, hab]
          · simp only [leChars, if_neg hyz, decide_eq_true_eq] at hbc
            have hxz : x < z := lt_trans hab hbc
            simp [leChars, ne_of_lt hxz, hxz]

/-- C1: for `GET /incidents`, a `limit` value that does not parse to a
number (`parseIntJS` gives `none`, the JS `NaN` case) or parses to a
value ≤ 0 yields the default effective limit 1000; an absent `limit`
also yields 1000; and the effective limit is always a positive integer,
so the limit handling itself never produces an error. -/
theorem limit_defaulting_total :
    (∀ s : String, parseIntJS s = none → effLimit (some s) = 1000) ∧
    (∀ (s : String) (v : Int), parseIntJS s = some v → v ≤ 0 →
      effLimit (some s) = 1000) ∧
    effLimit none = 1000 ∧
    (∀ o : Option String, 0 < effLimit o) := by
  refine ⟨?_, ?_, rfl, ?_⟩
  · intro s h
    by_cases he : s = "" <;> simp [effLimit, he, h]
  · intro s v h hv
    by_cases he : s = "" <;> simp [effLimit, he, h, hv]
  · intro o
    cases o with
    | none => norm_num [effLimit]
    | some s =>
      by_cases he : s = ""
      · norm_num [effLimit, he]
      · cases hp : parseIntJS s with
        | none => norm_num [effLimit, he, hp]
        | some v =>
          by_cases hv : v ≤ 0 <;> simp [effLimit, he, hp, hv] <;> omega

/-- C1 witness: concrete instances of the defaulting behaviour. -/
theorem limit_defaulting_total_witness :
    effLimit (some "abc") = 1000 ∧ effLimit (some "-5") = 1000 ∧
    effLimit none = 1000 ∧ 0 < effLimit (some "3") :=
  ⟨limit_defaulting_total.1 "abc" (by decide),
   limit_defaulting_total.2.1 "-5" (-5) (by decide) (by decide),
   limit_defaulting_total.2.2.1,
   limit_defaulting_total.2.2.2 (some "3")⟩

/-- C3: the rows answered by `GET /incidents` are ordered newest first:
whenever row `a` precedes row `b` in the result, `b`'s `date_time` is
at most `a`'s (`dtGe a b`). -/
theorem incidents_sorted_newest_first (db : List Incident) (q : IncidentsQuery) :
    (listIncidentsRows db q).Pairwise dtGe := by
  have htot : IsTotal Incident dtGe := ⟨fun a b => leChars_total _ _⟩
  have htrans : IsTrans Incident dtGe :=
    ⟨fun _ _ _ hab hbc => leChars_trans _ _ _ hbc hab⟩
  exact List.Pairwise.sublist (List.take_sublist _ _)
    (@List.sorted_insertionSort Incident dtGe _ htot htrans _)

/-- C4: `PUT /new-incident` with an already-present `case_number` fails
with the conflict message and leaves the store unchanged; with a fresh
`case_number` it appends exactly one new row whose `date_time` is the
supplied date and time concatenated with a `T`. -/
theorem create_conflict_or_insert (db : List Incident) (b : NewIncident) :
    (db.any (fun r => r.case_number == b.case_number) = true →
      createIncident db b = Except.error "Case number already exists" ∧
      storeAfterCreate db b = db) ∧
    (db.any (fun r => r.case_number == b.case_number) = false →
      createIncident db b = Except.ok (db ++ [mkRow b]) ∧
      storeAfterCreate db b = db ++ [mkRow b] ∧
      (mkRow b).date_time = b.date ++ "T" ++ b.time) := by
  constructor <;> intro h <;>
    simp [createIncident, storeAfterCreate, mkRow, h]

/-- C4 witness: the conflict branch on a store already holding the case
number, and the insert branch on an empty store. -/
theorem create_conflict_or_insert_witness :
    (createIncident [mkRow exBody2024] exBody2024 =
        Except.error "Case number already exists" ∧
      storeAfterCreate [mkRow exBody2024] exBody2024 = [mkRow exBody2024]) ∧
    (createIncident [] exBody2024 = Except.ok [mkRow exBody2024] ∧
      (mkRow exBody2024).date_time = "2024-01-05" ++ "T" ++ "13:30:00") :=
  ⟨(create_conflict_or_insert [mkRow exBody2024] exBody2024).1 (by decide),
   ⟨((create_conflict_or_insert [] exBody2024).2 (by decide)).1,
    ((create_conflict_or_insert [] exBody2024).2 (by decide)).2.2⟩⟩

/-- C5: `DELETE /remove-incident` with an absent `case_number` fails with
the not-found message and leaves the store unchanged; with a present one
it removes exactly the row(s) carrying that `case_number`: every other
row survives and every surviving row is an original row whose
`case_number` differs. -/
theorem delete_notfound_or_remove (db : List Incident) (cn : String) :
    (db.any (fun r => r.case_number == cn) = false →
      deleteIncident db cn = Except.error "Case number does not exist" ∧
      storeAfterDelete db cn = db) ∧
    (db.any (fun r => r.case_number == cn) = true →
      deleteIncident db cn =
        Except.ok (db.filter (fun r => r.case_number != cn)) ∧
      (∀ r ∈ db, r.case_number ≠ cn → r ∈ storeAfterDelete db cn) ∧
      (∀ r ∈ storeAfterDelete db cn, r ∈ db ∧ r.case_number ≠ cn)) := by
  constructor <;> intro h
  · simp [deleteIncident, storeAfterDelete, h]
  · refine ⟨by simp [deleteIncident, h], ?_, ?_⟩
    · intro r hr hne
      simp [deleteIncident, storeAfterDelete, h, List.mem_filter, hr, hne]
    · intro r hr
      simp only [deleteIncident, storeAfterDelete, h, if_pos,
        List.mem_filter] at hr
      exact ⟨hr.1, by simpa using hr.2⟩

/-- C5 witness: deleting a missing case number from `exDb` is a no-op
failure; deleting `rowA`'s case number keeps exactly `rowB`. -/
theorem delete_notfound_or_remove_witness :
    (deleteIncident exDb "nope" = Except.error "Case number does not exist" ∧
      storeAfterDelete exDb "nope" = exDb) ∧
    deleteIncident exDb "24100001" =
      Except.ok (exDb.filter (fun r => r.case_number != "24100001")) ∧
    rowB ∈ storeAfterDelete exDb "24100001" :=
  ⟨(delete_notfound_or_remove exDb "nope").1 (by decide),
   ((delete_notfound_or_remove exDb "24100001").2 (by decide)).1,
   ((delete_notfound_or_remove exDb "24100001").2 (by decide)).2.1 rowB
     (by decide) (by decide)⟩

/-- C10: `clampToStPaul` always lands inside the fixed St. Paul bounds,
is the identity on points already inside them, and a successful location
search for a point outside the bounds (`handleGoCenter`) re-centers the
map at the clamped in-bounds point, not at the found location.
Coordinates are microdegrees. -/
theorem clamp_to_bounds_idempotent :
    (∀ lat lng : Int,
      seLat ≤ (clampToStPaul lat lng).1 ∧ (clampToStPaul lat lng).1 ≤ nwLat ∧
      nwLng ≤ (clampToStPaul lat lng).2 ∧ (clampToStPaul lat lng).2 ≤ seLng) ∧
    (∀ lat lng : Int, seLat ≤ lat → lat ≤ nwLat → nwLng ≤ lng → lng ≤ seLng →
      clampToStPaul lat lng = (lat, lng)) ∧
    (handleGoCenter 44977800 (-93265000) = (44977800, nwLng) ∧
      (-93265000 : Int) < nwLng) := by
  refine ⟨?_, ?_, by decide, by decide⟩
  · intro lat lng
    simp only [clampToStPaul, maxJS, minJS, seLat, seLng, nwLat, nwLng]
    split_ifs <;> refine ⟨by omega, by omega, by omega, by omega⟩
  · intro lat lng h1 h2 h3 h4
    simp only [clampToStPaul, maxJS, minJS, seLat, seLng, nwLat, nwLng] at h1 h2 h3 h4 ⊢
    split_ifs <;> simp_all <;> omega

/-- C10 witness: an in-bounds point is returned unchanged. -/
theorem clamp_to_bounds_idempotent_witness :
    clampToStPaul 44950000 (-93100000) = (44950000, -93100000) :=
  clamp_to_bounds_idempotent.2.1 44950000 (-93100000)
    (by decide) (by decide) (by decide) (by decide)

theorem mem_listIncidentsRows {db : List Incident} {q : IncidentsQuery}
    {r : Incident} (h : r ∈ listIncidentsRows db q) :
    r ∈ db ∧ rowMatches q r = true := by
  unfold listIncidentsRows at h
  have h1 : r ∈ List.insertionSort dtGe (db.filter (fun x => rowMatches q x)) :=
    (List.take_sublist _ _).mem h
  rw [List.mem_insertionSort] at h1
  have h2 := List.mem_filter.mp h1
  exact ⟨h2.1, h2.2⟩

theorem rowMatches_dropCode {q : IncidentsQuery} {r : Incident}
    (h : rowMatches q r = true) : rowMatches (dropCode q) r = true := by
  simp only [rowMatches, dropCode, Bool.and_eq_true] at h ⊢
  exact ⟨⟨⟨⟨h.1.1.1.1, h.1.1.1.2⟩, rfl⟩, h.1.2⟩, h.2⟩

/-- C2 (amended): every row answered by `GET /incidents` with a
non-empty `code` filter has a `code` from the filter set; and whenever
the matching unfiltered row set is not truncated by the effective limit,
the filtered result is a subset of the result of the same request
without the code filter. -/
theorem code_filter_restricts (db : List Incident) (q : IncidentsQuery)
    (s : String) (hc : q.code = some s) (hs : s ≠ "") :
    (∀ r ∈ listIncidentsRows db q,
      inIntFilter r.code (splitCommaTrim s) = true) ∧
    ((db.filter (fun r => rowMatches (dropCode q) r)).length ≤
        effLimitNat q.limit →
      ∀ r ∈ listIncidentsRows db q, r ∈ listIncidentsRows db (dropCode q)) := by
  constructor
  · intro r hr
    have hm := (mem_listIncidentsRows hr).2
    simp only [rowMatches, Bool.and_eq_true] at hm
    have hcode := hm.1.1.2
    rw [hc] at hcode
    simpa [listMatch, hs] using hcode
  · intro hlen r hr
    obtain ⟨hrdb, hm⟩ := mem_listIncidentsRows hr
    have h1 : r ∈ db.filter (fun x => rowMatches (dropCode q) x) :=
      List.mem_filter.mpr ⟨hrdb, rowMatches_dropCode hm⟩
    unfold listIncidentsRows
    have hlim : (dropCode q).limit = q.limit := rfl
    rw [hlim, List.take_of_length_le]
    · rwa [List.mem_insertionSort]
    · rwa [(List.perm_insertionSort dtGe _).length_eq]

/-- C2 counterexample: with `limit=1` the unfiltered result keeps only
the newest row `rowA`, while the `code=7` filter returns the older
`rowB`, so the filtered result is not a subset of the unfiltered one. -/
theorem code_filter_restricts_cex :
    rowB ∈ listIncidentsRows exDb q7lim1 ∧
    rowB ∉ listIncidentsRows exDb (dropCode q7lim1) := by decide

/-- C2 witness: with the default limit (no truncation) the filtered
rows carry codes from the set and appear in the unfiltered result. -/
theorem code_filter_restricts_witness :
    inIntFilter rowB.code (splitCommaTrim "7") = true ∧
    rowB ∈ listIncidentsRows exDb (dropCode q7) := by
  have h := code_filter_restricts exDb q7 "7" rfl (by decide)
  exact ⟨h.1 rowB (by decide), h.2 (by decide) rowB (by decide)⟩

theorem takeWhile_append_run {p : Char → Bool} :
    ∀ (l1 : List Char) (x : Char) (l2 : List Char),
      (∀ c ∈ l1, p c = true) → p x = false →
      (l1 ++ x :: l2).takeWhile p = l1 ∧
        (l1 ++ x :: l2).dropWhile p = x :: l2 := by
  intro l1
  induction l1 with
  | nil =>
    intro x l2 _ hx
    simp [List.takeWhile, List.dropWhile, hx]
  | cons a as ih =>
    intro x l2 hall hx
    have ha : p a = true := hall a (List.mem_cons_self a as)
    have := ih x l2 (fun c hc => hall c (List.mem_cons_of_mem a hc)) hx
    simp [List.takeWhile, List.dropWhile, ha, this.1, this.2]

/-- C6: the read path splits the stored combined `date_time` back into
the original date and time strings (for any date string free of the `T`
separator), and concretely: creating an incident dated `2024-01-05`,
timed `13:30:00`, on an empty store and listing it back yields exactly
those `date` and `time` fields. -/
theorem date_time_roundtrip :
    (∀ d t : String, (∀ c ∈ d.data, c ≠ 'T') →
      dateOf (d ++ "T" ++ t) = d ∧ timeOf (d ++ "T" ++ t) = t) ∧
    storeAfterCreate [] exBody2024 = [mkRow exBody2024] ∧
    listIncidents (storeAfterCreate [] exBody2024) emptyQuery =
      [toOut (mkRow exBody2024)] ∧
    (toOut (mkRow exBody2024)).date = "2024-01-05" ∧
    (toOut (mkRow exBody2024)).time = "13:30:00" := by
  refine ⟨?_, by decide, by decide, by decide, by decide⟩
  intro d t hd
  have hdata : (d ++ "T" ++ t).data = d.data ++ 'T' :: t.data := by
    simp [String.data_append]
  have hall : ∀ c ∈ d.data, (c != 'T') = true := by
    intro c hc
    simpa using hd c hc
  have hx : (('T' : Char) != 'T') = false := by decide
  have hsplit := takeWhile_append_run d.data 'T' t.data hall hx
  constructor
  · show String.mk ((d ++ "T" ++ t).data.takeWhile (fun c => c != 'T')) = d
    rw [hdata, hsplit.1]
  · show String.mk
        (((d ++ "T" ++ t).data.dropWhile (fun c => c != 'T')).drop 1) = t
    rw [hdata, hsplit.2]
    rfl

/-- C6 witness: the split inverts the concatenation at the concrete
date and time of the claim. -/
theorem date_time_roundtrip_witness :
    dateOf ("2024-01-05" ++ "T" ++ "13:30:00") = "2024-01-05" ∧
    timeOf ("2024-01-05" ++ "T" ++ "13:30:00") = "13:30:00" :=
  date_time_roundtrip.1 "2024-01-05" "13:30:00" (by decide)

theorem placeholders_congr {l1 l2 : List String} (h : l1.length = l2.length) :
    placeholders l1 = placeholders l2 := by
  unfold placeholders
  rw [List.map_const', List.map_const', h]

theorem dateClause_congr (txt : String) {o1 o2 : Option String}
    (h : present o1 = present o2) :
    (dateClause txt o1).1 = (dateClause txt o2).1 := by
  cases o1 with
  | none =>
    cases o2 with
    | none => rfl
    | some s2 =>
      simp only [present, bne_iff_ne, ne_eq] at h
      by_cases h2 : s2 = ""
      · simp [dateClause, h2]
      · simp [h2] at h
  | some s1 =>
    cases o2 with
    | none =>
      simp only [present, bne_iff_ne, ne_eq] at h
      by_cases h1 : s1 = ""
      · simp [dateClause, h1]
      · simp [h1] at h
    | some s2 =>
      simp only [present, bne_iff_ne, ne_eq] at h
      by_cases h1 : s1 = "" <;> by_cases h2 : s2 = "" <;>
        simp [dateClause, h1, h2] <;> simp [h1, h2] at h

theorem listClause_congr (col : String) {o1 o2 : Option String}
    (h : lenOf o1 = lenOf o2) :
    (listClause col o1).1 = (listClause col o2).1 := by
  cases o1 with
  | none =>
    cases o2 with
    | none => rfl
    | some s2 =>
      by_cases h2 : s2 = ""
      · simp [listClause, h2]
      · simp [lenOf, h2] at h
  | some s1 =>
    cases o2 with
    | none =>
      by_cases h1 : s1 = ""
      · simp [listClause, h1]
      · simp [lenOf, h1] at h
    | some s2 =>
      by_cases h1 : s1 = "" <;> by_cases h2 : s2 = ""
      · simp [listClause, h1, h2]
      · simp [lenOf, h1, h2] at h
      · simp [lenOf, h1, h2] at h
      · have hlen : (splitCommaTrim s1).length = (splitCommaTrim s2).length := by
          simpa [lenOf, h1, h2] using h
        simp [listClause, h1, h2, placeholders_congr hlen]

/-- C8 (amended): the SQL texts of the three list endpoints are functions
of the request shape alone — which filters are present and how many
comma-separated elements each list filter has — plus, for
`GET /incidents` only, the effective clamped integer limit, which is the
single non-placeholder value interpolated into the text.  The filter
values themselves appear only in the bound-parameter lists. -/
theorem sql_text_shape_determined :
    (∀ q1 q2 : IncidentsQuery, incidentsShape q1 = incidentsShape q2 →
      effLimit q1.limit = effLimit q2.limit →
      (buildIncidentsQuery q1).1 = (buildIncidentsQuery q2).1) ∧
    (∀ c1 c2 : Option String, lenOf c1 = lenOf c2 →
      (buildCodesQuery c1).1 = (buildCodesQuery c2).1) ∧
    (∀ n1 n2 : Option String, lenOf n1 = lenOf n2 →
      (buildNeighborhoodsQuery n1).1 = (buildNeighborhoodsQuery n2).1) := by
  refine ⟨?_, ?_, ?_⟩
  · intro q1 q2 hsh hlim
    simp only [incidentsShape, Prod.mk.injEq] at hsh
    obtain ⟨h1, h2, h3, h4, h5, _⟩ := hsh
    have hw : incidentsWhereTexts q1 = incidentsWhereTexts q2 := by
      unfold incidentsWhereTexts
      rw [dateClause_congr _ h1, dateClause_congr _ h2, listClause_congr _ h3,
        listClause_congr _ h4, listClause_congr _ h5]
    simp only [buildIncidentsQuery]
    rw [hw, hlim]
  · intro c1 c2 h
    cases c1 with
    | none =>
      cases c2 with
      | none => rfl
      | some s2 =>
        by_cases h2 : s2 = ""
        · simp [buildCodesQuery, h2]
        · simp [lenOf, h2] at h
    | some s1 =>
      cases c2 with
      | none =>
        by_cases h1 : s1 = ""
        · simp [buildCodesQuery, h1]
        · simp [lenOf, h1] at h
      | some s2 =>
        by_cases h1 : s1 = "" <;> by_cases h2 : s2 = ""
        · simp [buildCodesQuery, h1, h2]
        · simp [lenOf, h1, h2] at h
        · simp [lenOf, h1, h2] at h
        · have hlen : (splitCommaTrim s1).length = (splitCommaTrim s2).length := by
            simpa [lenOf, h1, h2] using h
          simp [buildCodesQuery, h1, h2, placeholders_congr hlen]
  · intro n1 n2 h
    cases n1 with
    | none =>
      cases n2 with
      | none => rfl
      | some s2 =>
        by_cases h2 : s2 = ""
        · simp [buildNeighborhoodsQuery, h2]
        · simp [lenOf, h2] at h
    | some s1 =>
      cases n2 with
      | none =>
        by_cases h1 : s1 = ""
        · simp [buildNeighborhoodsQuery, h1]
        · simp [lenOf, h1] at h
      | some s2 =>
        by_cases h1 : s1 = "" <;> by_cases h2 : s2 = ""
        · simp [buildNeighborhoodsQuery, h1, h2]
        · simp [lenOf, h1, h2] at h
        · simp [lenOf, h1, h2] at h
        · have hlen : (splitCommaTrim s1).length = (splitCommaTrim s2).length := by
            simpa [lenOf, h1, h2] using h
          simp [buildNeighborhoodsQuery, h1, h2, placeholders_congr hlen]

/-- C8 counterexample: two `GET /incidents` requests with identical
presence pattern and element counts but different `limit` values produce
different SQL texts, because the clamped limit is interpolated into the
statement. -/
theorem sql_text_shape_cex :
    incidentsShape qLim5 = incidentsShape qLim7 ∧
    (buildIncidentsQuery qLim5).1 ≠ (buildIncidentsQuery qLim7).1 := by
  decide

/-- C8 witness: two requests with equal shape and equal effective limit
(`limit=5` versus `limit= 5` with a leading space) build the same
incident SQL text, and two different two-element code filters build the
same codes SQL text. -/
theorem sql_text_shape_witness :
    (buildIncidentsQuery qLim5).1 = (buildIncidentsQuery qLim5sp).1 ∧
    (buildCodesQuery (some "110,700")).1 = (buildCodesQuery (some "9,542")).1 :=
  ⟨sql_text_shape_determined.1 qLim5 qLim5sp (by decide) (by decide),
   sql_text_shape_determined.2.1 (some "110,700") (some "9,542") (by decide)⟩

/-- C7: the marker radius `8 + 25 * sqrt(count / maxCount)` of
`updateNeighborhoodCircles` is strictly increasing in the neighborhood's
count relative to the shared maximum, a zero-count neighborhood still
gets the fixed positive minimum radius 8, and for the counts
`(10, 5, 0)` of the claim the radii are strictly decreasing and all
positive. -/
theorem marker_radius_sizing :
    (∀ c1 c2 m : Nat, c1 < c2 → c2 ≤ m →
      markerRadius c1 m < markerRadius c2 m) ∧
    (∀ m : Nat, markerRadius 0 m = 8 ∧ (0 : Real) < markerRadius 0 m) ∧
    (maxCountOf [10, 5] = 10 ∧
      markerRadius 5 10 < markerRadius 10 10 ∧
      markerRadius 0 10 < markerRadius 5 10 ∧
      (0 : Real) < markerRadius 0 10) := by
  have hzero : ∀ m : Nat, markerRadius 0 m = 8 := by
    intro m
    simp [markerRadius]
  have hmono : ∀ c1 c2 m : Nat, c1 < c2 → c2 ≤ m →
      markerRadius c1 m < markerRadius c2 m := by
    intro c1 c2 m h12 h2m
    have hm : 0 < m := lt_of_lt_of_le (Nat.lt_of_le_of_lt (Nat.zero_le c1) h12) h2m
    have hmR : (0 : Real) < (m : Real) := by exact_mod_cast hm
    have h12R : (c1 : Real) < (c2 : Real) := by exact_mod_cast h12
    have hdiv : (c1 : Real) / (m : Real) < (c2 : Real) / (m : Real) :=
      div_lt_div_of_pos_right h12R hmR
    have hnn : (0 : Real) ≤ (c1 : Real) / (m : Real) := by positivity
    have hs := Real.sqrt_lt_sqrt hnn hdiv
    unfold markerRadius
    nlinarith [hs]
  refine ⟨hmono, fun m => ⟨hzero m, by rw [hzero m]; norm_num⟩,
    by decide, hmono 5 10 10 (by norm_num) (by norm_num),
    ?_, by rw [hzero 10]; norm_num⟩
  exact hmono 0 5 10 (by norm_num) (by norm_num)

/-- C7 witness: a concrete instance of the strict monotonicity. -/
theorem marker_radius_sizing_witness :
    markerRadius 1 4 < markerRadius 2 4 :=
  marker_radius_sizing.1 1 2 4 (by decide) (by decide)

theorem digits_append_ne_dx :
    ∀ (ds : List Char) (c : Char) (t : List Char),
      (∀ x ∈ ds, x.isDigit = true) → c.isDigit = false → c ≠ 'X' →
      ∀ (ds2 rest : List Char), (∀ x ∈ ds2, x.isDigit = true) →
        ds ++ c :: t ≠ ds2 ++ 'X' :: rest := by
  intro ds
  induction ds with
  | nil =>
    intro c t _ hc hcx ds2 rest hds2 heq
    cases ds2 with
    | nil =>
      simp only [List.nil_append, List.cons.injEq] at heq
      exact hcx heq.1
    | cons b bs =>
      simp only [List.nil_append, List.cons_append, List.cons.injEq] at heq
      have hb : b.isDigit = true := hds2 b (List.mem_cons_self b bs)
      rw [← heq.1] at hb
      rw [hc] at hb
      exact Bool.false_ne_true hb
  | cons a as ih =>
    intro c t hds hc hcx ds2 rest hds2 heq
    cases ds2 with
    | nil =>
      simp only [List.cons_append, List.nil_append, List.cons.injEq] at heq
      have ha : a.isDigit = true := hds a (List.mem_cons_self a as)
      rw [heq.1] at ha
      exact absurd ha (by decide)
    | cons b bs =>
      simp only [List.cons_append, List.cons.injEq] at heq
      exact ih c t (fun x hx => hds x (List.mem_cons_of_mem a hx)) hc hcx bs rest
        (fun x hx => hds2 x (List.mem_cons_of_mem b hx)) heq.2

theorem not_startsDX_of_head_not_digit {c : Char} {rest : List Char}
    (hc : c.isDigit = false) : ¬ StartsDX (c :: rest) := by
  rintro ⟨ds, r, hne, hdig, heq⟩
  cases ds with
  | nil => exact hne rfl
  | cons a as =>
    simp only [List.cons_append, List.cons.injEq] at heq
    have := hdig a (List.mem_cons_self a as)
    rw [← heq.1, hc] at this
    exact Bool.false_ne_true this

theorem spec_of_all_digits :
    ∀ l : List Char, (∀ x ∈ l, x.isDigit = true) → BlockExpandSpec l l := by
  intro l
  induction l with
  | nil => intro _; exact BlockExpandSpec.nil
  | cons a as ih =>
    intro h
    refine BlockExpandSpec.copy a as as ?_ (ih fun x hx => h x (List.mem_cons_of_mem a hx))
    rintro ⟨ds, r, hne, hdig, heq⟩
    have hx : ('X' : Char) ∈ a :: as := by
      rw [heq]
      exact List.mem_append_right ds (List.mem_cons_self 'X' r)
    have := h 'X' hx
    exact absurd this (by decide)

theorem spec_copy_run :
    ∀ (ds : List Char), (∀ x ∈ ds, x.isDigit = true) →
      ∀ (c : Char) (t out : List Char), c.isDigit = false → c ≠ 'X' →
        BlockExpandSpec (c :: t) out → BlockExpandSpec (ds ++ c :: t) (ds ++ out) := by
  intro ds
  induction ds with
  | nil => intro _ c t out _ _ h; exact h
  | cons a as ih =>
    intro hds c t out hc hcx h
    simp only [List.cons_append]
    refine BlockExpandSpec.copy a (as ++ c :: t) (as ++ out) ?_
      (ih (fun x hx => hds x (List.mem_cons_of_mem a hx)) c t out hc hcx h)
    rintro ⟨ds2, r, hne, hdig, heq⟩
    have : (a :: as) ++ c :: t = ds2 ++ 'X' :: r := by
      simpa using heq
    exact digits_append_ne_dx (a :: as) c t hds hc hcx ds2 r hdig this

theorem goExpand_spec :
    ∀ (l pending : List Char), (∀ x ∈ pending, x.isDigit = true) →
      BlockExpandSpec (pending.reverse ++ l) (goExpand pending l) := by
  intro l
  induction l with
  | nil =>
    intro pending hp
    rw [List.append_nil]
    exact spec_of_all_digits _ (fun x hx => hp x (List.mem_reverse.mp hx))
  | cons c cs ih =>
    intro pending hp
    by_cases hd : c.isDigit
    · have h1 := ih (c :: pending) (by
        intro x hx
        rcases List.mem_cons.mp hx with h | h
        · rw [h]; exact hd
        · exact hp x h)
      rw [List.reverse_cons, List.append_assoc] at h1
      simpa [goExpand, hd] using h1
    · have hd' : c.isDigit = false := by simpa using hd
      by_cases hx : c = 'X' ∧ pending ≠ []
      · obtain ⟨hceq, hpne⟩ := hx
        subst hceq
        have hrw : goExpand pending ('X' :: cs) =
            pending.reverse ++ '0' :: goExpand [] cs := by
          simp [goExpand, hd', hpne]
        rw [hrw]
        refine BlockExpandSpec.expand pending.reverse cs (goExpand [] cs)
          (by simpa using hpne) (fun x hxm => hp x (List.mem_reverse.mp hxm)) ?_
        simpa using ih [] (by intro x hxm; cases hxm)
      · have hrw : goExpand pending (c :: cs) =
            pending.reverse ++ c :: goExpand [] cs := by
          simp only [goExpand, if_neg hx]
          rw [if_neg hd]
        rw [hrw]
        have hinner : BlockExpandSpec (c :: cs) (c :: goExpand [] cs) := by
          refine BlockExpandSpec.copy c cs (goExpand [] cs)
            (not_startsDX_of_head_not_digit hd') ?_
          simpa using ih [] (by intro x hxm; cases hxm)
        by_cases hcx : c = 'X'
        · have hpe : pending = [] := by
            by_contra hne
            exact hx ⟨hcx, hne⟩
          subst hpe
          simpa using hinner
        · exact spec_copy_run pending.reverse
            (fun x hxm => hp x (List.mem_reverse.mp hxm)) c cs _ hd' hcx hinner

/-- C9: the address submitted for geocoding by `showIncidentOnMap` is the
incident's block with the digit-then-`X` placeholder expansion applied
and the fixed city suffix appended; the expansion satisfies the spec
relation `BlockExpandSpec` (every digit-run-then-`X` occurrence becomes
the digits followed by a literal `0`, everything else is copied); a
concrete block expands as the claim describes; and on geocoding failure
the user is notified and no marker is placed. -/
theorem block_geocode_behaviour :
    (∀ b : String, geocodeAddress b = expandBlock b ++ ", St. Paul, MN") ∧
    (∀ s : String, BlockExpandSpec s.data (expandBlock s).data) ∧
    expandBlock "95X UNIVERSITY AV W" = "950 UNIVERSITY AV W" ∧
    (∀ st : CrimeMapState, (showIncidentOnMap st none).crimeMarker = none ∧
      (showIncidentOnMap st none).notified = true) := by
  refine ⟨fun b => rfl, ?_, by decide, fun st => ⟨rfl, rfl⟩⟩
  intro s
  have h := goExpand_spec s.data [] (by intro x hx; cases hx)
  simpa using h
